import Mathlib

/-
Verification of the event-loop / message-queue / job-control subsystem
(src/event_loop.c, src/message_queue.c, src/job.c).

The C code is shallowly embedded:
- The linked-list event queue is modelled with an arena of nodes
  (address = index into a list).  `vim_free` on a popped node does not
  remove it from the arena: the allocator model never reuses memory, so a
  stale `tail` pointer into a freed node gives deterministic behaviour
  (the write lands in the arena but the node is unreachable from `head`),
  mirroring what the C program does when the freed block is not recycled.
- Blocking is modelled by an oracle argument giving the result of
  `pthread_cond_timedwait`; file descriptors are natural numbers; the
  `select` readiness result is an oracle list of ready descriptors; the
  byte counts accepted by `write` and delivered by `read` are oracles.
- Machine integers that matter (`kill_timeout`) are `Int`; byte buffers
  are `List Nat`.
-/

namespace EvQ

/-- One heap node of the linked queue (`struct ev_T` / `struct message_T`):
a payload value and a `next` pointer (an arena address or NULL). -/
structure Node (α : Type) where
  val : α
  next : Option Nat
deriving DecidableEq, Repr

/-- The queue state (`struct event_queue_T` / `struct message_queue_T`):
the arena of all nodes ever allocated (freed nodes stay at their address,
memory is never reused), plus the `head` and `tail` pointers. -/
structure Queue (α : Type) where
  nodes : List (Node α)
  head : Option Nat
  tail : Option Nat
deriving DecidableEq, Repr

/-- The state after `queue_init`: no nodes, `head = tail = NULL`. -/
def qinit {α : Type} : Queue α := ⟨[], none, none⟩

/-- Store `nx` into the `next` field of the node at address `a`
(the C statement `p->next = msg`). -/
def setNext {α : Type} (nodes : List (Node α)) (a : Nat) (nx : Option Nat) :
    List (Node α) :=
  match nodes.get? a with
  | some n => nodes.set a { n with next := nx }
  | none => nodes

/-- `queue_push` (event_loop.c lines 137-179, message_queue.c 140-182).
A new node is allocated at the end of the arena.  If `head` is NULL the
node becomes the head and the consumer is woken; `tail` is NOT touched in
this branch.  Otherwise the node is linked after `tail` (or after `head`
when `tail` is still NULL) and `tail` is updated. -/
def queue_push {α : Type} (q : Queue α) (v : α) : Queue α :=
  let a := q.nodes.length
  let nodes := q.nodes ++ [⟨v, none⟩]
  match q.head with
  | none => { nodes := nodes, head := some a, tail := q.tail }
  | some h =>
    match q.tail with
    | none => { nodes := setNext nodes h (some a), head := some h, tail := some a }
    | some t => { nodes := setNext nodes t (some a), head := some h, tail := some a }

/-- `queue_shift` (event_loop.c lines 183-208, message_queue.c 186-211),
restricted to the serialized non-blocking view used for FIFO reasoning:
on a non-empty queue it removes and returns the head node's value (the
node is freed by the caller but stays in the arena); on an empty queue the
wait times out and NULL is returned.  `tail` is never touched. -/
def queue_shift {α : Type} (q : Queue α) : Queue α × Option α :=
  match q.head with
  | none => (q, none)
  | some h =>
    match q.nodes.get? h with
    | some n => ({ q with head := n.next }, some n.val)
    | none => (q, none)

/-- The chain of values reachable from a pointer by following `next`,
with fuel to keep the traversal total. -/
def chainFrom {α : Type} (nodes : List (Node α)) : Option Nat → Nat → List α
  | _, 0 => []
  | none, _ + 1 => []
  | some a, fuel + 1 =>
    match nodes.get? a with
    | none => []
    | some n => n.val :: chainFrom nodes n.next fuel

/-- The events reachable from `head`, i.e. what future pops can deliver. -/
def toList {α : Type} (q : Queue α) : List α :=
  chainFrom q.nodes q.head q.nodes.length

/-- A serialized operation on the queue: a producer push or a consumer pop. -/
inductive QOp where
  | push (v : Nat)
  | pop
deriving DecidableEq, Repr

/-- Run a serialized sequence of pushes and pops from a starting state,
collecting the result of every pop. -/
def runOps : Queue Nat → List QOp → Queue Nat × List (Option Nat)
  | q, [] => (q, [])
  | q, QOp.push v :: ops => runOps (queue_push q v) ops
  | q, QOp.pop :: ops =>
    let s := queue_shift q
    let r := runOps s.1 ops
    (r.1, s.2 :: r.2)

/-- The possible return codes of `pthread_cond_timedwait`: success (0),
ETIMEDOUT, EINVAL, EPERM. -/
inductive CondWaitRet where
  | success
  | etimedout
  | einval
  | eperm
deriving DecidableEq, Repr

/-- Outcome of the `timedwait` helper (event_loop.c lines 90-116,
message_queue.c 92-119): either it returns FALSE (timeout) or it calls
`pthread_error`, which prints the message and exits the process.  The
switch has cases for ETIMEDOUT, EINVAL and EPERM only; every other
result -- including 0, the success code -- falls into `default:` and is
fatal, so the trailing `return TRUE` is unreachable. -/
inductive WaitOutcome where
  | timedOut
  | fatal (msg : String)
deriving DecidableEq, Repr

/-- The `timedwait` switch, faithful to the source: no `case 0`. -/
def timedwait : CondWaitRet → WaitOutcome
  | CondWaitRet.etimedout => WaitOutcome.timedOut
  | CondWaitRet.einval => WaitOutcome.fatal "Value specified by abstime is invalid"
  | CondWaitRet.eperm => WaitOutcome.fatal "Doesn't own the mutex"
  | CondWaitRet.success => WaitOutcome.fatal "Unknown error waiting condition"

/-- Result of `queue_shift` with a finite timeout `ms ≥ 0`. -/
inductive ShiftResult where
  | got (v : Nat)
  | noneAvail
  | died (msg : String)
deriving DecidableEq, Repr

/-- `queue_shift(ms)` with `ms ≥ 0`: a non-empty queue yields its head
at once; an empty queue calls `timedwait`, whose result `r` is supplied
by the oracle (ETIMEDOUT when nothing was pushed within `ms`, success
when a push signalled the condition variable in time). -/
def queue_shift_timed (q : Queue Nat) (r : CondWaitRet) : ShiftResult :=
  match q.head with
  | some h =>
    match q.nodes.get? h with
    | some n => ShiftResult.got n.val
    | none => ShiftResult.noneAvail
  | none =>
    match timedwait r with
    | WaitOutcome.timedOut => ShiftResult.noneAvail
    | WaitOutcome.fatal m => ShiftResult.died m

end EvQ

namespace JobCtl

/-- `#define KILL_TIMEOUT 25` (job.c line 29). -/
def KILL_TIMEOUT : Int := 25

/-- `#define MAX_RUNNING_JOBS 5` (job.c line 30). -/
def MAX_RUNNING_JOBS : Nat := 5

/-- `#define BUF_SIZE 4096` (job.c line 31). -/
def BUF_SIZE : Nat := 4096

/-- One pending stdin chunk (`struct in_buf_node_T`): the bytes of the
chunk (`data`, whose length is the `len` field) and the read cursor
(`pos`).  The `next` pointer is modelled by the position in the list. -/
structure Chunk where
  data : List Nat
  pos : Nat
deriving DecidableEq, Repr

/-- One supervised job (`struct job_T`).  `argv` and `name` are opaque
bookkeeping irrelevant to the polled behaviour and are omitted.  A byte
buffer is the list of bytes stored so far: its length is the buffer
position (`stdout_buf_pos` / `stderr_buf_pos`) and `BUF_SIZE` is the
capacity. -/
structure Job where
  id : Nat
  pid : Int
  inFd : Nat
  outFd : Nat
  errFd : Nat
  stopped : Bool
  kill_timeout : Int
  stdout_buf : List Nat
  stderr_buf : List Nat
  stdin_chunks : List Chunk
deriving DecidableEq, Repr

/-- The externally visible actions `jobs_poll` performs on a stopped
job: closing its stdin and sending signals to its process. -/
inductive Act where
  | closeStdin (pid : Int)
  | sigterm (pid : Int)
  | sigkill (pid : Int)
deriving DecidableEq, Repr

/-- The stopped-job branch of `jobs_poll` (job.c lines 100-114):
`if (job->kill_timeout-- == KILL_TIMEOUT)` closes stdin and sends
SIGTERM (the comparison reads the old value, the decrement always
happens); `else if (job->kill_timeout == 0)` reads the decremented value
and sends SIGKILL.  Returns the new `kill_timeout` and the actions. -/
def stoppedTick (pid : Int) (kt : Int) : Int × List Act :=
  if kt = KILL_TIMEOUT then
    (kt - 1, [Act.closeStdin pid, Act.sigterm pid])
  else if kt - 1 = 0 then
    (kt - 1, [Act.sigkill pid])
  else
    (kt - 1, [])

/-- `kill_timeout` of a stopped job after `c` poll cycles, starting from
the initial `KILL_TIMEOUT` value set by `job_start`. -/
def ktAfter : Nat → Int
  | 0 => KILL_TIMEOUT
  | c + 1 => (stoppedTick 0 (ktAfter c)).1

/-- The actions sent during poll cycle `c` (0-indexed: cycle 0 is the
first `jobs_poll` after `job_stop`) to a stopped job whose process never
exits, with the pid abstracted to 0. -/
def actsAt (c : Nat) : List Act := (stoppedTick 0 (ktAfter c)).2

/-- Read-interest registration for a live job (job.c lines 124-135):
stdout / stderr descriptors are added to the read set only while the
corresponding buffer has free capacity. -/
def regR (j : Job) : List Nat :=
  (if j.stdout_buf.length < BUF_SIZE then [j.outFd] else []) ++
    (if j.stderr_buf.length < BUF_SIZE then [j.errFd] else [])

/-- Write-interest registration for a live job (job.c lines 117-122):
stdin is added to the write set only while there is pending data. -/
def regW (j : Job) : List Nat :=
  if j.stdin_chunks.isEmpty then [] else [j.inFd]

/-- Result of the first `jobs_poll` loop for one job. -/
structure Phase1JobOut where
  job : Job
  acts : List Act
  rfds : List Nat
  wfds : List Nat
deriving DecidableEq, Repr

/-- The first `jobs_poll` loop, one job (job.c lines 97-137): a stopped
job gets the escalation tick and registers nothing; a live job registers
its descriptors and is otherwise untouched. -/
def phase1Job (j : Job) : Phase1JobOut :=
  if j.stopped = true then
    ⟨{ j with kill_timeout := (stoppedTick j.pid j.kill_timeout).1 },
      (stoppedTick j.pid j.kill_timeout).2, [], []⟩
  else
    ⟨j, [], regR j, regW j⟩

/-- Result of the first `jobs_poll` loop over the whole table. -/
structure Phase1Out where
  table : List (Option Job)
  acts : List Act
  rfds : List Nat
  wfds : List Nat

/-- The first `jobs_poll` loop over the job table (job.c lines 97-137),
accumulating the updated slots, the escalation actions and the
registered read / write descriptor sets. -/
def phase1 : List (Option Job) → Phase1Out
  | [] => ⟨[], [], [], []⟩
  | none :: rest =>
    let r := phase1 rest
    ⟨none :: r.table, r.acts, r.rfds, r.wfds⟩
  | some j :: rest =>
    let p := phase1Job j
    let r := phase1 rest
    ⟨some p.job :: r.table, p.acts ++ r.acts, p.rfds ++ r.rfds, p.wfds ++ r.wfds⟩

/-- `read` into a bounded buffer (job.c lines 160-171): the OS has
`avail` bytes pending on the descriptor; `read(fd, buf + pos,
BUF_SIZE - pos)` transfers at most the free capacity and the position
advances by the transferred count. -/
def readInto (buf avail : List Nat) : List Nat :=
  buf ++ avail.take (BUF_SIZE - buf.length)

/-- The stdin flush loop (job.c lines 173-196).  `accepts` is the
oracle giving, for each successive `write` call in this cycle, how many
bytes the OS pipe accepts.  Each iteration computes
`to_write = chunk->len - chunk->pos` and calls
`write(job->in, chunk->data, to_write)`: the bytes that reach the child
are the first `count` bytes of `chunk->data` -- the source passes
`chunk->data`, not `chunk->data + chunk->pos`.  On a short write the
cursor advances and the loop breaks; on a full write the chunk is
discarded and the loop continues.  Returns the remaining chunk queue and
the bytes delivered to the child this cycle. -/
def flushChunks : List Nat → List Chunk → List Chunk × List Nat
  | _, [] => ([], [])
  | accepts, c :: rest =>
    let to_write := c.data.length - c.pos
    let count := min (accepts.headD 0) to_write
    if count = to_write then
      let r := flushChunks accepts.tail rest
      (r.1, c.data.take count ++ r.2)
    else
      ({ c with pos := c.pos + count } :: rest, c.data.take count)

/-- Second `jobs_poll` loop, stdout read (job.c lines 160-165): read
only when the descriptor survived `select` in the read set. -/
def phase2ReadOut (rr : List Nat) (avail : List Nat) (j : Job) : Job :=
  if j.outFd ∈ rr then { j with stdout_buf := readInto j.stdout_buf avail } else j

/-- Second `jobs_poll` loop, stderr read (job.c lines 166-171). -/
def phase2ReadErr (rr : List Nat) (avail : List Nat) (j : Job) : Job :=
  if j.errFd ∈ rr then { j with stderr_buf := readInto j.stderr_buf avail } else j

/-- Second `jobs_poll` loop, stdin flush (job.c lines 173-196): flush
only when the descriptor survived `select` in the write set. -/
def phase2Write (ww : List Nat) (accepts : List Nat) (j : Job) : Job :=
  if j.inFd ∈ ww then
    { j with stdin_chunks := (flushChunks accepts j.stdin_chunks).1 }
  else j

/-- Second `jobs_poll` loop, one job (job.c lines 155-197). -/
def phase2Job (rr ww : List Nat) (availOut availErr accepts : List Nat)
    (j : Job) : Job :=
  phase2Write ww accepts (phase2ReadErr rr availErr (phase2ReadOut rr availOut j))

/-- Second `jobs_poll` loop over the table (job.c lines 155-197).
`osAvail fd` is the pending input on descriptor `fd`; `osAccept fd` the
per-write accepted byte counts on `fd`. -/
def phase2 (rr ww : List Nat) (osAvail osAccept : Nat → List Nat) :
    List (Option Job) → List (Option Job)
  | [] => []
  | none :: rest => none :: phase2 rr ww osAvail osAccept rest
  | some j :: rest =>
    some (phase2Job rr ww (osAvail j.outFd) (osAvail j.errFd) (osAccept j.inFd) j)
      :: phase2 rr ww osAvail osAccept rest

/-- One `jobs_poll` cycle (job.c lines 78-200): registration and
escalation, a zero-timeout `select` whose result is the oracle pair
`osR` / `osW` of descriptors that are actually ready (the surviving sets
are the registered sets restricted to the ready ones), then the
read / write pass. -/
def jobs_poll (osR osW : List Nat) (osAvail osAccept : Nat → List Nat)
    (table : List (Option Job)) : List (Option Job) × List Act :=
  let p := phase1 table
  (phase2 (p.rfds.filter (fun x => osR.contains x))
      (p.wfds.filter (fun x => osW.contains x)) osAvail osAccept p.table,
    p.acts)

/-- First free slot of the job table (job.c lines 243-245). -/
def firstFree : List (Option Job) → Option Nat
  | [] => none
  | none :: _ => some 0
  | some _ :: rest => (firstFree rest).map (fun k => k + 1)

/-- `job_start` (job.c lines 229-307), parent's view.  `forkRes` is the
value `fork()` returned in the parent: a child pid on success, `-1` on
failure.  The source checks only `== 0` (the child branch); the parent
branch runs for every other value, including `-1`: it records the job
with `pid = forkRes` in the free slot and returns `slot + 1`.  The
results of `pipe()` are never checked; the pipe descriptors are the
`inFd`, `outFd`, `errFd` arguments.  Only a full table returns 0. -/
def job_start (table : List (Option Job)) (forkRes : Int)
    (inFd outFd errFd : Nat) : List (Option Job) × Nat :=
  match firstFree table with
  | none => (table, 0)
  | some i =>
    (table.set i (some
      { id := i + 1, pid := forkRes, inFd := inFd, outFd := outFd,
        errFd := errFd, stopped := false, kill_timeout := KILL_TIMEOUT,
        stdout_buf := [], stderr_buf := [], stdin_chunks := [] }),
      i + 1)

/-- The three descriptors belonging to a job. -/
def fdsOf (j : Job) : List Nat := [j.inFd, j.outFd, j.errFd]

/-- `slotFdsDisjoint j o` says the slot content `o` shares no descriptor
with job `j` (process-wide uniqueness of open file descriptors). -/
def slotFdsDisjoint (j : Job) : Option Job → Prop
  | none => True
  | some j2 => ∀ x ∈ fdsOf j, x ∉ fdsOf j2

instance (j : Job) (o : Option Job) : Decidable (slotFdsDisjoint j o) :=
  match o with
  | none => Decidable.isTrue trivial
  | some j2 => inferInstanceAs (Decidable (∀ x ∈ fdsOf j, x ∉ fdsOf j2))

/-- A live job with both read buffers at full capacity and pending stdin
data, used to exercise the backpressure path on a concrete table. -/
def fullJob : Job :=
  { id := 1, pid := 9, inFd := 3, outFd := 4, errFd := 5, stopped := false,
    kill_timeout := KILL_TIMEOUT, stdout_buf := List.replicate BUF_SIZE 0,
    stderr_buf := List.replicate BUF_SIZE 1, stdin_chunks := [⟨[1, 2], 0⟩] }

/-- A stopped job with buffered data and pending writes, used to exercise
the stopped-job frame on a concrete table. -/
def stoppedJob : Job :=
  { id := 2, pid := 11, inFd := 6, outFd := 7, errFd := 8, stopped := true,
    kill_timeout := 10, stdout_buf := [5], stderr_buf := [6],
    stdin_chunks := [⟨[3, 4], 1⟩] }

end JobCtl

namespace EvLoop

/-- `typedef enum { UserInput, Custom } EventType` (event_loop.c line 16). -/
inductive EventType where
  | UserInput
  | Custom
deriving DecidableEq, Repr

/-- The return value of `ev_inchar` (event_loop.c lines 292-333) for a
blocking call (`wtime ≠ 0`), as a function of the message obtained from
`queue_shift` and of `cur_len` (the byte count the background thread
stored for the last user input): NULL (timeout) returns 0; a `UserInput`
message returns `cur_len`; any other message type falls through to the
final `return 0`. -/
def ev_inchar_ret : Option EventType → Nat → Nat
  | none, _ => 0
  | some EventType.UserInput, cur_len => cur_len
  | some EventType.Custom, _ => 0

end EvLoop

namespace MsgQ

/-- `typedef enum { UserInput, DeferredCall } MessageType`
(message_queue.c line 16). -/
inductive MessageType where
  | UserInput
  | DeferredCall
deriving DecidableEq, Repr

/-- What one turn of the `msg_inchar` consumption loop does
(message_queue.c lines 352-375). -/
inductive StepResult where
  | finish (n : Nat)
  | gotNothing
  | keepWaiting
deriving DecidableEq, Repr

/-- One turn of the `while (TRUE)` loop of `msg_inchar`: NULL from
`queue_shift` returns 0; a `UserInput` message returns `cur_len`; a
`DeferredCall` message breaks out of the switch and the loop runs
another `queue_shift`. -/
def msg_inchar_step : Option MessageType → Nat → StepResult
  | none, _ => StepResult.gotNothing
  | some MessageType.UserInput, cur_len => StepResult.finish cur_len
  | some MessageType.DeferredCall, _ => StepResult.keepWaiting

end MsgQ

namespace Bridge

/-- The observable actions of a background input-bridge thread: completing
a wait on `char_wait_cond` (which consumes one go-signal from the
consumer), performing the bounded host read until input is available, and
pushing a `UserInput` event onto the queue. -/
inductive BAct where
  | goWait
  | hostRead
  | emitUserInput
deriving DecidableEq, Repr

/-- The action trace of `n` iterations of `inchar_loop`
(event_loop.c lines 213-239): each iteration of the outer `while (TRUE)`
first runs the bounded-read loop until input arrives, then pushes
`UserInput`, and only then waits on `char_wait_cond`.  In particular the
thread starts reading immediately when it is created. -/
def incharLoopTrace : Nat → List BAct
  | 0 => []
  | n + 1 => incharLoopTrace n ++ [BAct.hostRead, BAct.emitUserInput, BAct.goWait]

/-- The action trace of `n` iterations of `vgetcs`
(message_queue.c lines 217-256): each iteration first waits on
`char_wait_cond` (with `is_waiting` raised so the consumer's spin-wait
in `char_wait` can see it), then runs the bounded-read loop and pushes
exactly one `UserInput`. -/
def vgetcsTrace : Nat → List BAct
  | 0 => []
  | n + 1 => vgetcsTrace n ++ [BAct.goWait, BAct.hostRead, BAct.emitUserInput]

/-- Number of `UserInput` events pushed in a trace. -/
def emits : List BAct → Nat
  | [] => 0
  | BAct.emitUserInput :: r => emits r + 1
  | _ :: r => emits r

/-- Number of go-signals consumed (waits completed) in a trace. -/
def goSignals : List BAct → Nat
  | [] => 0
  | BAct.goWait :: r => goSignals r + 1
  | _ :: r => goSignals r

end Bridge

namespace JobCtl

/-- Every branch of the stopped-job tick decrements `kill_timeout`. -/
theorem stoppedTick_kt (pid kt : Int) : (stoppedTick pid kt).1 = kt - 1 := by
  unfold stoppedTick
  split
  · rfl
  · split <;> rfl

/-- After `c` cycles the countdown is `KILL_TIMEOUT - c`. -/
theorem ktAfter_eq (c : Nat) : ktAfter c = KILL_TIMEOUT - c := by
  induction c with
  | zero => simp [ktAfter]
  | succ n ih =>
    rw [ktAfter, stoppedTick_kt, ih]
    push_cast
    ring

/-- Closed form of the escalation actions per cycle: stdin close and
SIGTERM at cycle 0, SIGKILL at cycle 24, nothing otherwise. -/
theorem actsAt_eq (c : Nat) :
    actsAt c = if c = 0 then [Act.closeStdin 0, Act.sigterm 0]
      else if c = 24 then [Act.sigkill 0] else [] := by
  unfold actsAt
  rw [ktAfter_eq]
  unfold stoppedTick KILL_TIMEOUT
  split_ifs with h1 h2 h3 h4 <;> first | rfl | omega

end JobCtl

namespace Bridge

/-- `emits` distributes over concatenation of traces. -/
theorem emits_append (l1 l2 : List BAct) :
    emits (l1 ++ l2) = emits l1 + emits l2 := by
  induction l1 with
  | nil => simp [emits]
  | cons a r ih =>
    cases a <;> simp [emits, ih]
    omega

/-- `goSignals` distributes over concatenation of traces. -/
theorem goSignals_append (l1 l2 : List BAct) :
    goSignals (l1 ++ l2) = goSignals l1 + goSignals l2 := by
  induction l1 with
  | nil => simp [goSignals]
  | cons a r ih =>
    cases a <;> simp [goSignals, ih]
    omega

/-- `n` iterations of `vgetcs` push exactly `n` UserInput events. -/
theorem emits_vgetcs (n : Nat) : emits (vgetcsTrace n) = n := by
  induction n with
  | zero => rfl
  | succ n ih =>
    show emits (vgetcsTrace n ++ [BAct.goWait, BAct.hostRead, BAct.emitUserInput])
      = n + 1
    rw [emits_append, ih]
    rfl

/-- `n` iterations of `vgetcs` consume exactly `n` go-signals. -/
theorem goSignals_vgetcs (n : Nat) : goSignals (vgetcsTrace n) = n := by
  induction n with
  | zero => rfl
  | succ n ih =>
    show goSignals (vgetcsTrace n ++ [BAct.goWait, BAct.hostRead, BAct.emitUserInput])
      = n + 1
    rw [goSignals_append, ih]
    rfl

/-- `n` iterations of `inchar_loop` push exactly `n` UserInput events. -/
theorem emits_inchar (n : Nat) : emits (incharLoopTrace n) = n := by
  induction n with
  | zero => rfl
  | succ n ih =>
    show emits (incharLoopTrace n ++ [BAct.hostRead, BAct.emitUserInput, BAct.goWait])
      = n + 1
    rw [emits_append, ih]
    rfl

/-- `n` iterations of `inchar_loop` consume exactly `n` go-signals. -/
theorem goSignals_inchar (n : Nat) : goSignals (incharLoopTrace n) = n := by
  induction n with
  | zero => rfl
  | succ n ih =>
    show goSignals (incharLoopTrace n ++ [BAct.hostRead, BAct.emitUserInput, BAct.goWait])
      = n + 1
    rw [goSignals_append, ih]
    rfl

/-- In any cut of one `vgetcs` iteration block, the wait comes first, so
emits never outnumber consumed go-signals. -/
theorem vgetcs_block_le (m : Nat) :
    emits (([BAct.goWait, BAct.hostRead, BAct.emitUserInput]).take m)
      ≤ goSignals (([BAct.goWait, BAct.hostRead, BAct.emitUserInput]).take m) := by
  match m with
  | 0 => decide
  | 1 => decide
  | 2 => decide
  | m + 3 => simp [List.take_succ_cons, List.take_nil, emits, goSignals]

/-- In any cut of one `inchar_loop` iteration block, at most one emit can
precede the block's wait. -/
theorem inchar_block_le (m : Nat) :
    emits (([BAct.hostRead, BAct.emitUserInput, BAct.goWait]).take m)
      ≤ goSignals (([BAct.hostRead, BAct.emitUserInput, BAct.goWait]).take m) + 1 := by
  match m with
  | 0 => decide
  | 1 => decide
  | 2 => decide
  | m + 3 => simp [List.take_succ_cons, List.take_nil, emits, goSignals]

/-- On every finite cut of the `vgetcs` trace, UserInput events never
outnumber the go-signals already consumed. -/
theorem vgetcs_take_le (n : Nat) :
    ∀ k, emits ((vgetcsTrace n).take k) ≤ goSignals ((vgetcsTrace n).take k) := by
  induction n with
  | zero =>
    intro k
    simp [vgetcsTrace, List.take_nil, emits]
  | succ n ih =>
    intro k
    show emits ((vgetcsTrace n ++
          [BAct.goWait, BAct.hostRead, BAct.emitUserInput]).take k)
      ≤ goSignals ((vgetcsTrace n ++
          [BAct.goWait, BAct.hostRead, BAct.emitUserInput]).take k)
    rw [List.take_append_eq_append_take, emits_append, goSignals_append]
    exact Nat.add_le_add (ih k) (vgetcs_block_le _)

/-- On every finite cut of the `inchar_loop` trace, at most one UserInput
event exceeds the go-signals already consumed (the unsolicited first
read). -/
theorem inchar_take_le (n : Nat) :
    ∀ k, emits ((incharLoopTrace n).take k)
      ≤ goSignals ((incharLoopTrace n).take k) + 1 := by
  induction n with
  | zero =>
    intro k
    simp [incharLoopTrace, List.take_nil, emits, goSignals]
  | succ n ih =>
    intro k
    show emits ((incharLoopTrace n ++
          [BAct.hostRead, BAct.emitUserInput, BAct.goWait]).take k)
      ≤ goSignals ((incharLoopTrace n ++
          [BAct.hostRead, BAct.emitUserInput, BAct.goWait]).take k) + 1
    rw [List.take_append_eq_append_take, emits_append, goSignals_append]
    rcases le_or_lt k (incharLoopTrace n).length with hk | hk
    · rw [Nat.sub_eq_zero_of_le hk]
      simpa using ih k
    · rw [List.take_of_length_le (Nat.le_of_lt hk), emits_inchar, goSignals_inchar]
      have hb := inchar_block_le (k - (incharLoopTrace n).length)
      omega

end Bridge

/-- C1: the claim says a pending chunk flushed across multiple poll cycles
delivers the exact original bytes in order exactly once, each write
resuming at the read cursor.  The code violates this: `write` is called
with `chunk->data` instead of `chunk->data + chunk->pos`, so after a
partial write the next cycle re-sends the first bytes of the chunk.  For
the chunk `[10, 20]`, with the OS accepting 1 byte in the first cycle and
the rest in the second, the child receives `[10, 10]`, not `[10, 20]`. -/
theorem c1_partial_write_replays_start :
    (JobCtl.flushChunks [1] [⟨[10, 20], 0⟩]).2 ++
        (JobCtl.flushChunks [5] (JobCtl.flushChunks [1] [⟨[10, 20], 0⟩]).1).2
      = [10, 10] ∧
    (JobCtl.flushChunks [5] (JobCtl.flushChunks [1] [⟨[10, 20], 0⟩]).1).1 = [] ∧
    ([10, 10] : List Nat) ≠ [10, 20] := by
  decide

/-- C2: the claim says pushes are FIFO-appended and pops return exactly the
pushed events in order, for any interleaving of pushes and pops.  The code
violates this: `queue_shift` never resets `tail`, so once pops empty a
queue whose `tail` was set, `tail` dangles at a freed node; the next push
re-seeds `head` without fixing `tail`, and the push after that links the
new node behind the dangling `tail`, unreachable from `head`.  Pushing
1, 2, popping both, then pushing 3, 4 and popping twice yields
1, 2, 3, NULL: event 4 is lost. -/
theorem c2_fifo_loses_event_after_drain :
    (EvQ.runOps EvQ.qinit
        [EvQ.QOp.push 1, EvQ.QOp.push 2, EvQ.QOp.pop, EvQ.QOp.pop,
          EvQ.QOp.push 3, EvQ.QOp.push 4, EvQ.QOp.pop, EvQ.QOp.pop]).2
      = [some 1, some 2, some 3, none] ∧
    ([some 1, some 2, some 3, none] : List (Option Nat))
      ≠ [some 1, some 2, some 3, some 4] := by
  decide

/-- C3: the claim says `pop(timeout)` on an empty queue returns the pushed
head event when the waiter is woken within the duration, the process
continuing normally.  The code violates this: the `switch` in `timedwait`
has no `case 0`, so a successful wakeup (`pthread_cond_timedwait`
returning 0 because a push signalled the condition variable in time)
falls into `default:` and `pthread_error` exits the process.  Only the
ETIMEDOUT path and the queue-non-empty path behave as claimed. -/
theorem c3_successful_wakeup_is_fatal :
    EvQ.queue_shift_timed EvQ.qinit EvQ.CondWaitRet.success
      = EvQ.ShiftResult.died "Unknown error waiting condition" ∧
    EvQ.queue_shift_timed EvQ.qinit EvQ.CondWaitRet.etimedout
      = EvQ.ShiftResult.noneAvail ∧
    EvQ.queue_shift_timed (EvQ.queue_push EvQ.qinit 7) EvQ.CondWaitRet.success
      = EvQ.ShiftResult.got 7 := by
  decide

/-- C5: the claim says any spawn failure (pipe, fork or exec) reports id 0
and leaves the job table unchanged.  The code violates this: `job_start`
never checks the results of `pipe()` or `fork()`.  When `fork()` returns
-1, the parent branch runs anyway: a job with `pid = -1` is recorded in
the free slot and the nonzero slot id is returned. -/
theorem c5_fork_failure_mutates_table :
    (JobCtl.job_start [none] (-1) 3 4 5).2 = 1 ∧
    (JobCtl.job_start [none] (-1) 3 4 5).1
      = [some { id := 1, pid := -1, inFd := 3, outFd := 4, errFd := 5,
                stopped := false, kill_timeout := JobCtl.KILL_TIMEOUT,
                stdout_buf := [], stderr_buf := [], stdin_chunks := [] }] ∧
    (JobCtl.job_start [none] (-1) 3 4 5).1 ≠ [none] := by
  decide

/-- C6 counterexample: the claim says that when the next drained event is a
custom/deferred one, the call returns that event's indicator, and the loop
never returns without one of real input, job activity, a queued event or
the idle signal.  In `ev_inchar` a drained `Custom` event reaches the
final `return 0`: the caller gets 0, exactly the same value as when no
event arrived at all, so the custom event produces no indicator and the
call returns with none of the four outcomes. -/
theorem c6_custom_event_returns_no_indicator :
    EvLoop.ev_inchar_ret (some EvLoop.EventType.Custom) 7 = 0 ∧
    EvLoop.ev_inchar_ret none 7 = 0 := by
  decide

/-- C6 amended: an indefinite-wait `ev_inchar` that drains a `Custom`
event consumes it and returns 0 -- indistinguishable from the no-input
return -- and only a `UserInput` event yields the input indicator
`cur_len`; in the message_queue variant a drained `DeferredCall` does not
return to the host at all: the loop goes back to waiting. -/
theorem c6_amended_custom_yields_zero :
    ∀ n : Nat,
      EvLoop.ev_inchar_ret (some EvLoop.EventType.Custom) n = 0 ∧
      EvLoop.ev_inchar_ret (some EvLoop.EventType.UserInput) n = n ∧
      MsgQ.msg_inchar_step (some MsgQ.MessageType.DeferredCall) n
        = MsgQ.StepResult.keepWaiting := by
  intro n
  exact ⟨rfl, rfl, rfl⟩

/-- C7: the claim says head/tail always stay consistent with the chain and
that a queue emptied by pops resets both pointers, so a later push appends
a reachable node and loses no event.  The code violates this: after
pushing 1, 2 and popping both, `head` is NULL but `tail` still holds the
address of the freed node 1; pushing 3 and then 4 links node 4 behind the
stale `tail`, so only 3 is reachable from `head` and 4 is lost. -/
theorem c7_tail_not_reset_after_drain :
    (EvQ.runOps EvQ.qinit
        [EvQ.QOp.push 1, EvQ.QOp.push 2, EvQ.QOp.pop, EvQ.QOp.pop]).1.head = none ∧
    (EvQ.runOps EvQ.qinit
        [EvQ.QOp.push 1, EvQ.QOp.push 2, EvQ.QOp.pop, EvQ.QOp.pop]).1.tail = some 1 ∧
    EvQ.toList
        (EvQ.queue_push
          (EvQ.queue_push
            (EvQ.runOps EvQ.qinit
              [EvQ.QOp.push 1, EvQ.QOp.push 2, EvQ.QOp.pop, EvQ.QOp.pop]).1 3) 4)
      = [3] := by
  decide

/-- C4: for a stopped job whose process never exits, successive poll
cycles (0-indexed from the first poll after `job_stop`) close stdin and
send SIGTERM exactly once, at the threshold cycle 0 (the countdown starts
at `KILL_TIMEOUT` and the post-decrement test fires immediately), send
SIGKILL exactly once at the strictly later cycle 24 when the countdown
reaches zero, never send both in one cycle, and perform no action in the
cycles in between. -/
theorem c4_graduated_termination :
    (∀ c, JobCtl.Act.sigterm 0 ∈ JobCtl.actsAt c ↔ c = 0) ∧
    (∀ c, JobCtl.Act.closeStdin 0 ∈ JobCtl.actsAt c ↔ c = 0) ∧
    (∀ c, JobCtl.Act.sigkill 0 ∈ JobCtl.actsAt c ↔ c = 24) ∧
    (∀ c, ¬(JobCtl.Act.sigterm 0 ∈ JobCtl.actsAt c ∧
      JobCtl.Act.sigkill 0 ∈ JobCtl.actsAt c)) ∧
    (∀ c, 0 < c → c < 24 → JobCtl.actsAt c = []) ∧
    (0 : Nat) < 24 := by
  refine ⟨fun c => ?_, fun c => ?_, fun c => ?_, fun c => ?_, fun c h1 h2 => ?_,
    by omega⟩ <;>
    rw [JobCtl.actsAt_eq] <;>
    split_ifs with ha hb <;>
    simp_all

/-- C9 counterexample: the claim says the bridge thread performs a host
read and emits a `UserInput` event only after an explicit go-signal, on
every execution.  The `inchar_loop` bridge of event_loop.c violates this:
its loop body reads and pushes `UserInput` first and waits for the
consumer's signal only afterwards, so the first two actions of its trace
are already a read and an emit with zero prior go-signals. -/
theorem c9_inchar_loop_emits_before_any_signal :
    Bridge.emits ((Bridge.incharLoopTrace 1).take 2) = 1 ∧
    Bridge.goSignals ((Bridge.incharLoopTrace 1).take 2) = 0 := by
  decide

/-- C9 amended: the go-signal contract holds for the `vgetcs` bridge of
message_queue.c -- on every cut of its trace the UserInput events never
outnumber the consumed go-signals, and `n` iterations emit exactly `n`
events for exactly `n` signals.  The `inchar_loop` bridge of event_loop.c
instead emits its first UserInput before any go-signal; after that
unsolicited first read the same one-event-per-signal regime holds (on
every cut, emits exceed consumed go-signals by at most one, with equal
totals per iteration count). -/
theorem c9_amended_go_signal_discipline :
    ∀ n : Nat,
      ((∀ k, Bridge.emits ((Bridge.vgetcsTrace n).take k)
          ≤ Bridge.goSignals ((Bridge.vgetcsTrace n).take k)) ∧
        Bridge.emits (Bridge.vgetcsTrace n) = n ∧
        Bridge.goSignals (Bridge.vgetcsTrace n) = n) ∧
      ((∀ k, Bridge.emits ((Bridge.incharLoopTrace n).take k)
          ≤ Bridge.goSignals ((Bridge.incharLoopTrace n).take k) + 1) ∧
        Bridge.emits (Bridge.incharLoopTrace n) = n ∧
        Bridge.goSignals (Bridge.incharLoopTrace n) = n) :=
  fun n =>
    ⟨⟨Bridge.vgetcs_take_le n, Bridge.emits_vgetcs n, Bridge.goSignals_vgetcs n⟩,
      ⟨Bridge.inchar_take_le n, Bridge.emits_inchar n, Bridge.goSignals_inchar n⟩⟩


namespace JobCtl

/-- An index that holds a value is within bounds. -/
theorem lt_of_getq_some {α : Type} {l : List α} {k : Nat} {o : α}
    (h : l[k]? = some o) : k < l.length := by
  by_contra hk
  push_neg at hk
  rw [List.getElem?_eq_none hk] at h
  cases h

/-- `getD` agrees with a successful lookup. -/
theorem getD_eq_of_getq {α : Type} {l : List α} {k : Nat} {o : α} (d : α)
    (h : l[k]? = some o) : l.getD k d = o := by
  rw [List.getD_eq_getElem?_getD, h]
  rfl

/-- The table produced by the first `jobs_poll` loop, slot by slot. -/
theorem phase1_table_get (t : List (Option Job)) (i : Nat) :
    (phase1 t).table[i]?
      = (t[i]?).map (Option.map (fun j => (phase1Job j).job)) := by
  induction t generalizing i with
  | nil => simp [phase1]
  | cons o rest ih =>
    cases o with
    | none => cases i <;> simp [phase1, ih]
    | some j => cases i <;> simp [phase1, ih]

/-- Every registered read descriptor comes from a live job's `regR`. -/
theorem mem_phase1_rfds {t : List (Option Job)} {x : Nat}
    (hx : x ∈ (phase1 t).rfds) :
    ∃ (k : Nat) (j2 : Job), t[k]? = some (some j2) ∧ j2.stopped = false ∧ x ∈ regR j2 := by
  induction t with
  | nil => simp [phase1] at hx
  | cons o rest ih =>
    cases o with
    | none =>
      obtain ⟨k, j2, h1, h2, h3⟩ := ih (by simpa [phase1] using hx)
      exact ⟨k + 1, j2, by simpa using h1, h2, h3⟩
    | some j =>
      have hx2 : x ∈ (phase1Job j).rfds ++ (phase1 rest).rfds := by
        simpa [phase1] using hx
      rcases List.mem_append.mp hx2 with h | h
      · by_cases hs : j.stopped = true
        · simp [phase1Job, hs] at h
        · refine ⟨0, j, by simp, by simpa using hs, ?_⟩
          simpa [phase1Job, hs] using h
      · obtain ⟨k, j2, h1, h2, h3⟩ := ih h
        exact ⟨k + 1, j2, by simpa using h1, h2, h3⟩

/-- Every registered write descriptor comes from a live job's `regW`. -/
theorem mem_phase1_wfds {t : List (Option Job)} {x : Nat}
    (hx : x ∈ (phase1 t).wfds) :
    ∃ (k : Nat) (j2 : Job), t[k]? = some (some j2) ∧ j2.stopped = false ∧ x ∈ regW j2 := by
  induction t with
  | nil => simp [phase1] at hx
  | cons o rest ih =>
    cases o with
    | none =>
      obtain ⟨k, j2, h1, h2, h3⟩ := ih (by simpa [phase1] using hx)
      exact ⟨k + 1, j2, by simpa using h1, h2, h3⟩
    | some j =>
      have hx2 : x ∈ (phase1Job j).wfds ++ (phase1 rest).wfds := by
        simpa [phase1] using hx
      rcases List.mem_append.mp hx2 with h | h
      · by_cases hs : j.stopped = true
        · simp [phase1Job, hs] at h
        · refine ⟨0, j, by simp, by simpa using hs, ?_⟩
          simpa [phase1Job, hs] using h
      · obtain ⟨k, j2, h1, h2, h3⟩ := ih h
        exact ⟨k + 1, j2, by simpa using h1, h2, h3⟩

/-- Read registrations of a job are among its descriptors. -/
theorem regR_subset {j : Job} {x : Nat} (h : x ∈ regR j) : x ∈ fdsOf j := by
  unfold regR at h
  rcases List.mem_append.mp h with h | h
  · by_cases hc : j.stdout_buf.length < BUF_SIZE
    · rw [if_pos hc] at h
      simp_all [fdsOf]
    · rw [if_neg hc] at h
      cases h
  · by_cases hc : j.stderr_buf.length < BUF_SIZE
    · rw [if_pos hc] at h
      simp_all [fdsOf]
    · rw [if_neg hc] at h
      cases h

/-- Write registrations of a job are among its descriptors. -/
theorem regW_subset {j : Job} {x : Nat} (h : x ∈ regW j) : x ∈ fdsOf j := by
  unfold regW at h
  by_cases hc : j.stdin_chunks.isEmpty
  · rw [if_pos hc] at h
    cases h
  · rw [if_neg hc] at h
    simp_all [fdsOf]

end JobCtl

namespace JobCtl

/-- The table produced by the second `jobs_poll` loop, slot by slot. -/
theorem phase2_get (rr ww : List Nat) (oA oC : Nat → List Nat)
    (t : List (Option Job)) (i : Nat) :
    (phase2 rr ww oA oC t)[i]?
      = (t[i]?).map (Option.map
          (fun j => phase2Job rr ww (oA j.outFd) (oA j.errFd) (oC j.inFd) j)) := by
  induction t generalizing i with
  | nil => simp [phase2]
  | cons o rest ih =>
    cases o with
    | none => cases i <;> simp [phase2, ih]
    | some j => cases i <;> simp [phase2, ih]

/-- The table component of `jobs_poll`, spelled out. -/
theorem jobs_poll_fst (osR osW : List Nat) (osAvail osAccept : Nat → List Nat)
    (t : List (Option Job)) :
    (jobs_poll osR osW osAvail osAccept t).1
      = phase2 ((phase1 t).rfds.filter (fun x => osR.contains x))
          ((phase1 t).wfds.filter (fun x => osW.contains x)) osAvail osAccept
          (phase1 t).table := rfl

/-- A job whose stdout descriptor did not survive `select` is not read on
stdout. -/
theorem phase2ReadOut_id {rr avail : List Nat} {j : Job} (h : j.outFd ∉ rr) :
    phase2ReadOut rr avail j = j := by
  unfold phase2ReadOut
  exact if_neg h

/-- A job whose stderr descriptor did not survive `select` is not read on
stderr. -/
theorem phase2ReadErr_id {rr avail : List Nat} {j : Job} (h : j.errFd ∉ rr) :
    phase2ReadErr rr avail j = j := by
  unfold phase2ReadErr
  exact if_neg h

/-- A job whose stdin descriptor did not survive `select` is not flushed. -/
theorem phase2Write_id {ww accepts : List Nat} {j : Job} (h : j.inFd ∉ ww) :
    phase2Write ww accepts j = j := by
  unfold phase2Write
  exact if_neg h

/-- The stderr read step never touches the stdout buffer. -/
theorem phase2ReadErr_stdout (rr avail : List Nat) (j : Job) :
    (phase2ReadErr rr avail j).stdout_buf = j.stdout_buf := by
  unfold phase2ReadErr
  split <;> rfl

/-- The stdin flush step never touches the stdout buffer. -/
theorem phase2Write_stdout (ww accepts : List Nat) (j : Job) :
    (phase2Write ww accepts j).stdout_buf = j.stdout_buf := by
  unfold phase2Write
  split <;> rfl

/-- The stdout read step never touches the stderr buffer. -/
theorem phase2ReadOut_stderr (rr avail : List Nat) (j : Job) :
    (phase2ReadOut rr avail j).stderr_buf = j.stderr_buf := by
  unfold phase2ReadOut
  split <;> rfl

/-- The stdout read step never changes the stderr descriptor. -/
theorem phase2ReadOut_errFd (rr avail : List Nat) (j : Job) :
    (phase2ReadOut rr avail j).errFd = j.errFd := by
  unfold phase2ReadOut
  split <;> rfl

/-- The stdin flush step never touches the stderr buffer. -/
theorem phase2Write_stderr (ww accepts : List Nat) (j : Job) :
    (phase2Write ww accepts j).stderr_buf = j.stderr_buf := by
  unfold phase2Write
  split <;> rfl

/-- When nothing survived `select` for a job, the second loop leaves it
untouched. -/
theorem phase2Job_id {rr ww availOut availErr accepts : List Nat} {j : Job}
    (ho : j.outFd ∉ rr) (he : j.errFd ∉ rr) (hi : j.inFd ∉ ww) :
    phase2Job rr ww availOut availErr accepts j = j := by
  unfold phase2Job
  rw [phase2ReadOut_id ho, phase2ReadErr_id he, phase2Write_id hi]

/-- When the stdout descriptor did not survive `select`, the second loop
leaves the stdout buffer untouched. -/
theorem phase2Job_stdout {rr ww availOut availErr accepts : List Nat} {j : Job}
    (ho : j.outFd ∉ rr) :
    (phase2Job rr ww availOut availErr accepts j).stdout_buf = j.stdout_buf := by
  unfold phase2Job
  rw [phase2ReadOut_id ho, phase2Write_stdout, phase2ReadErr_stdout]

/-- When the stderr descriptor did not survive `select`, the second loop
leaves the stderr buffer untouched. -/
theorem phase2Job_stderr {rr ww availOut availErr accepts : List Nat} {j : Job}
    (he : j.errFd ∉ rr) :
    (phase2Job rr ww availOut availErr accepts j).stderr_buf = j.stderr_buf := by
  unfold phase2Job
  rw [phase2Write_stderr,
    phase2ReadErr_id (by rw [phase2ReadOut_errFd]; exact he),
    phase2ReadOut_stderr]

/-- The first `jobs_poll` loop never changes a job's descriptors, buffers
or pending chunks. -/
theorem phase1Job_fields (j : Job) :
    (phase1Job j).job.inFd = j.inFd ∧ (phase1Job j).job.outFd = j.outFd ∧
    (phase1Job j).job.errFd = j.errFd ∧
    (phase1Job j).job.stdout_buf = j.stdout_buf ∧
    (phase1Job j).job.stderr_buf = j.stderr_buf ∧
    (phase1Job j).job.stdin_chunks = j.stdin_chunks := by
  unfold phase1Job
  split <;> simp

/-- A descriptor of the job in slot `i` is never registered for reading
by other slots (their descriptors are disjoint) and is registered by slot
`i` itself only through `regR`. -/
theorem fd_not_in_rfds {table : List (Option Job)} {i : Nat} {j : Job} {x : Nat}
    (hget : table[i]? = some (some j))
    (hx : x ∈ fdsOf j)
    (hdisj : ∀ k, k < table.length → k ≠ i → slotFdsDisjoint j (table.getD k none))
    (hself : j.stopped = true ∨ x ∉ regR j) :
    x ∉ (phase1 table).rfds := by
  intro hmem
  obtain ⟨k, j2, h1, h2, h3⟩ := mem_phase1_rfds hmem
  by_cases hk : k = i
  · subst hk
    rw [hget] at h1
    obtain rfl : j2 = j := by
      injection h1 with h1a
      injection h1a with h1b
      exact h1b.symm
    rcases hself with hs | hs
    · rw [h2] at hs
      cases hs
    · exact hs h3
  · have hlt : k < table.length := lt_of_getq_some h1
    have hd := hdisj k hlt hk
    rw [getD_eq_of_getq none h1] at hd
    exact hd x hx (regR_subset h3)

/-- A descriptor of the job in slot `i` is never registered for writing
by other slots and is registered by slot `i` itself only through `regW`. -/
theorem fd_not_in_wfds {table : List (Option Job)} {i : Nat} {j : Job} {x : Nat}
    (hget : table[i]? = some (some j))
    (hx : x ∈ fdsOf j)
    (hdisj : ∀ k, k < table.length → k ≠ i → slotFdsDisjoint j (table.getD k none))
    (hself : j.stopped = true ∨ x ∉ regW j) :
    x ∉ (phase1 table).wfds := by
  intro hmem
  obtain ⟨k, j2, h1, h2, h3⟩ := mem_phase1_wfds hmem
  by_cases hk : k = i
  · subst hk
    rw [hget] at h1
    obtain rfl : j2 = j := by
      injection h1 with h1a
      injection h1a with h1b
      exact h1b.symm
    rcases hself with hs | hs
    · rw [h2] at hs
      cases hs
    · exact hs h3
  · have hlt : k < table.length := lt_of_getq_some h1
    have hd := hdisj k hlt hk
    rw [getD_eq_of_getq none h1] at hd
    exact hd x hx (regW_subset h3)

end JobCtl

namespace JobCtl

/-- C8: for a job in the table whose stdout (resp. stderr) buffer write
cursor has reached the full capacity `BUF_SIZE`, `jobs_poll` does not
register read-interest for that descriptor -- it is absent from the
registered read set, hence from the post-`select` ready set whatever the
OS reports -- and therefore the cycle performs no read into that buffer:
the job emerges from the cycle with that buffer unchanged.  Descriptors
are assumed process-unique (`hne`, `hdisj`), as for real open fds. -/
theorem c8_backpressure_no_read_interest
    (osR osW : List Nat) (osAvail osAccept : Nat → List Nat)
    (table : List (Option Job)) (i : Nat) (j : Job)
    (hget : table[i]? = some (some j))
    (hne : j.outFd ≠ j.errFd)
    (hdisj : ∀ k, k < table.length → k ≠ i → slotFdsDisjoint j (table.getD k none)) :
    (j.stdout_buf.length = BUF_SIZE →
      j.outFd ∉ (phase1 table).rfds ∧
      ∃ j2, (jobs_poll osR osW osAvail osAccept table).1[i]? = some (some j2) ∧
        j2.stdout_buf = j.stdout_buf) ∧
    (j.stderr_buf.length = BUF_SIZE →
      j.errFd ∉ (phase1 table).rfds ∧
      ∃ j2, (jobs_poll osR osW osAvail osAccept table).1[i]? = some (some j2) ∧
        j2.stderr_buf = j.stderr_buf) := by
  have hout : j.outFd ∈ fdsOf j := by simp [fdsOf]
  have herr : j.errFd ∈ fdsOf j := by simp [fdsOf]
  have hp1 : (phase1 table).table[i]? = some (some (phase1Job j).job) := by
    rw [phase1_table_get, hget]
    rfl
  have hres := phase2_get ((phase1 table).rfds.filter (fun x => osR.contains x))
      ((phase1 table).wfds.filter (fun x => osW.contains x)) osAvail osAccept
      (phase1 table).table i
  rw [hp1] at hres
  simp only [Option.map_some'] at hres
  constructor
  · intro hfull
    have hregout : j.outFd ∉ regR j := by
      unfold regR
      intro hm
      rcases List.mem_append.mp hm with h | h
      · rw [if_neg (by rw [hfull]; exact lt_irrefl BUF_SIZE)] at h
        cases h
      · by_cases hc : j.stderr_buf.length < BUF_SIZE
        · rw [if_pos hc] at h
          simp at h
          exact hne h
        · rw [if_neg hc] at h
          cases h
    have hnot : j.outFd ∉ (phase1 table).rfds :=
      fd_not_in_rfds hget hout hdisj (Or.inr hregout)
    rw [jobs_poll_fst]
    refine ⟨hnot, _, hres, ?_⟩
    have hnotrr : (phase1Job j).job.outFd ∉
        (phase1 table).rfds.filter (fun x => osR.contains x) := by
      rw [(phase1Job_fields j).2.1]
      intro hm
      exact hnot (List.mem_of_mem_filter hm)
    rw [phase2Job_stdout hnotrr]
    exact (phase1Job_fields j).2.2.2.1
  · intro hfull
    have hregerr : j.errFd ∉ regR j := by
      unfold regR
      intro hm
      rcases List.mem_append.mp hm with h | h
      · by_cases hc : j.stdout_buf.length < BUF_SIZE
        · rw [if_pos hc] at h
          simp at h
          exact hne h.symm
        · rw [if_neg hc] at h
          cases h
      · rw [if_neg (by rw [hfull]; exact lt_irrefl BUF_SIZE)] at h
        cases h
    have hnot : j.errFd ∉ (phase1 table).rfds :=
      fd_not_in_rfds hget herr hdisj (Or.inr hregerr)
    rw [jobs_poll_fst]
    refine ⟨hnot, _, hres, ?_⟩
    have hnotrr : (phase1Job j).job.errFd ∉
        (phase1 table).rfds.filter (fun x => osR.contains x) := by
      rw [(phase1Job_fields j).2.2.1]
      intro hm
      exact hnot (List.mem_of_mem_filter hm)
    rw [phase2Job_stderr hnotrr]
    exact (phase1Job_fields j).2.2.2.2.1

/-- C8 witness: a single-slot table holding a live job with both buffers
at full capacity, the OS reporting both read descriptors readable and
stdin writable: no read-interest is registered for either descriptor and
both buffers survive the poll cycle unchanged. -/
theorem c8_backpressure_no_read_interest_witness :
    (([some fullJob] : List (Option Job))[0]? = some (some fullJob) ∧
      fullJob.outFd ≠ fullJob.errFd ∧
      fullJob.stdout_buf.length = BUF_SIZE ∧
      fullJob.stderr_buf.length = BUF_SIZE) ∧
    (fullJob.outFd ∉ (phase1 [some fullJob]).rfds ∧
      ∃ j2, (jobs_poll [4, 5] [3] (fun _ => [9]) (fun _ => [1])
          [some fullJob]).1[0]? = some (some j2) ∧
        j2.stdout_buf = fullJob.stdout_buf) ∧
    (fullJob.errFd ∉ (phase1 [some fullJob]).rfds ∧
      ∃ j2, (jobs_poll [4, 5] [3] (fun _ => [9]) (fun _ => [1])
          [some fullJob]).1[0]? = some (some j2) ∧
        j2.stderr_buf = fullJob.stderr_buf) := by
  have hget : ([some fullJob] : List (Option Job))[0]? = some (some fullJob) := rfl
  have hne : fullJob.outFd ≠ fullJob.errFd := by decide
  have hdisj : ∀ k, k < ([some fullJob] : List (Option Job)).length → k ≠ 0 →
      slotFdsDisjoint fullJob (([some fullJob] : List (Option Job)).getD k none) := by
    intro k hk h0
    simp only [List.length_singleton] at hk
    exact absurd (by omega) h0
  have hfo : fullJob.stdout_buf.length = BUF_SIZE := by
    simp [fullJob]
  have hfe : fullJob.stderr_buf.length = BUF_SIZE := by
    simp [fullJob]
  have h := c8_backpressure_no_read_interest [4, 5] [3] (fun _ => [9])
      (fun _ => [1]) [some fullJob] 0 fullJob hget hne hdisj
  exact ⟨⟨hget, hne, hfo, hfe⟩, h.1 hfo, h.2 hfe⟩

/-- C10: a stopped job in the table is excluded from registration -- none
of its three descriptors appears in the registered read or write sets --
so the poll cycle performs no I/O on its streams: the slot emerges with
the stdout/stderr buffers, their cursors, and the pending-write queue all
unchanged, the only modification being the decremented kill countdown
(plus the escalation signals, which are emitted alongside, see the
graduated-termination theorem).  Descriptors are assumed process-unique
(`hdisj`). -/
theorem c10_stopped_job_frame
    (osR osW : List Nat) (osAvail osAccept : Nat → List Nat)
    (table : List (Option Job)) (i : Nat) (j : Job)
    (hget : table[i]? = some (some j)) (hstop : j.stopped = true)
    (hdisj : ∀ k, k < table.length → k ≠ i → slotFdsDisjoint j (table.getD k none)) :
    (∀ x ∈ fdsOf j, x ∉ (phase1 table).rfds ∧ x ∉ (phase1 table).wfds) ∧
    (jobs_poll osR osW osAvail osAccept table).1[i]?
      = some (some { j with kill_timeout := j.kill_timeout - 1 }) := by
  have hfds : ∀ x ∈ fdsOf j, x ∉ (phase1 table).rfds ∧ x ∉ (phase1 table).wfds :=
    fun x hx => ⟨fd_not_in_rfds hget hx hdisj (Or.inl hstop),
      fd_not_in_wfds hget hx hdisj (Or.inl hstop)⟩
  refine ⟨hfds, ?_⟩
  have hp1 : (phase1 table).table[i]?
      = some (some { j with kill_timeout := j.kill_timeout - 1 }) := by
    rw [phase1_table_get, hget]
    simp [phase1Job, hstop, stoppedTick_kt]
  have hres := phase2_get ((phase1 table).rfds.filter (fun x => osR.contains x))
      ((phase1 table).wfds.filter (fun x => osW.contains x)) osAvail osAccept
      (phase1 table).table i
  rw [hp1] at hres
  simp only [Option.map_some'] at hres
  have ho : ({ j with kill_timeout := j.kill_timeout - 1 } : Job).outFd ∉
      (phase1 table).rfds.filter (fun x => osR.contains x) := by
    intro hm
    exact (hfds j.outFd (by simp [fdsOf])).1 (List.mem_of_mem_filter hm)
  have he : ({ j with kill_timeout := j.kill_timeout - 1 } : Job).errFd ∉
      (phase1 table).rfds.filter (fun x => osR.contains x) := by
    intro hm
    exact (hfds j.errFd (by simp [fdsOf])).1 (List.mem_of_mem_filter hm)
  have hi : ({ j with kill_timeout := j.kill_timeout - 1 } : Job).inFd ∉
      (phase1 table).wfds.filter (fun x => osW.contains x) := by
    intro hm
    exact (hfds j.inFd (by simp [fdsOf])).2 (List.mem_of_mem_filter hm)
  rw [phase2Job_id ho he hi] at hres
  rw [jobs_poll_fst]
  exact hres

/-- C10 witness: a single-slot table holding a stopped job with data in
both buffers and a half-flushed pending chunk, the OS reporting all its
descriptors ready: nothing is registered for it and the poll cycle only
decrements its countdown. -/
theorem c10_stopped_job_frame_witness :
    (([some stoppedJob] : List (Option Job))[0]? = some (some stoppedJob) ∧
      stoppedJob.stopped = true) ∧
    (∀ x ∈ fdsOf stoppedJob,
      x ∉ (phase1 [some stoppedJob]).rfds ∧
        x ∉ (phase1 [some stoppedJob]).wfds) ∧
    (jobs_poll [6, 7, 8] [6] (fun _ => [1]) (fun _ => [1])
        [some stoppedJob]).1[0]?
      = some (some { stoppedJob with
          kill_timeout := stoppedJob.kill_timeout - 1 }) := by
  have hget : ([some stoppedJob] : List (Option Job))[0]?
      = some (some stoppedJob) := rfl
  have hstop : stoppedJob.stopped = true := rfl
  have hdisj : ∀ k, k < ([some stoppedJob] : List (Option Job)).length → k ≠ 0 →
      slotFdsDisjoint stoppedJob
        (([some stoppedJob] : List (Option Job)).getD k none) := by
    intro k hk h0
    simp only [List.length_singleton] at hk
    exact absurd (by omega) h0
  have h := c10_stopped_job_frame [6, 7, 8] [6] (fun _ => [1]) (fun _ => [1])
      [some stoppedJob] 0 stoppedJob hget hstop hdisj
  exact ⟨⟨hget, hstop⟩, h.1, h.2⟩

end JobCtl
